import Mathlib

/-!
Shallow embedding of `src/memory.py` (a memory-management simulator for a
simple CPU emulator): `Program`, the two `Loader` strategies, `Memory` with
its partition table, and `Pagination`.

Modelling conventions:
* A Python `bytearray` is a `List Nat` whose elements are bytes (0..255);
  element assignment checks `0 ≤ v < 256` exactly where CPython does.
* Python exceptions are the explicit error type `PyError`
  (`MemoryError` / `IndexError` / `ValueError`), and every operation that can
  raise returns `Except PyError _`.
* In the source, `Memory.partitions = []` is declared in the class body and
  the instances only ever mutate it in place (`self.partitions.append(...)`),
  never rebind it; by Python attribute lookup every `Memory` instance
  therefore aliases one single class-level list.  The embedding makes that
  explicit: the class-level list is a value of type `List PartitionRec`
  threaded through the operations that touch it, and
  `Memory.observedPartitions` is what `some_instance.partitions` evaluates to
  (the shared class-level list, whichever instance is asked).
* Python slice assignment `buf[a:b] = xs` replaces the (clamped) slice by
  `xs` and RESIZES the bytearray when the lengths differ; the loader
  embeddings below reproduce that literally.
-/

set_option autoImplicit false

/-- Bytes stored in buffers; the byte range 0..255 is enforced at the
operations that CPython enforces it. -/
abbrev Byte := Nat

/-- The Python exceptions raised by `src/memory.py`. -/
inductive PyError where
  | memoryError
  | indexError
  | valueError
deriving DecidableEq, Repr

/-- `class Program` (src/memory.py lines 2-18): `size` plus the
zero-initialised `instructions` bytearray. -/
structure Program where
  size : Int
  instructions : List Byte
deriving DecidableEq, Repr

/-- `Program.__init__(self, size=32)`: `self.instructions = bytearray(size)`.
`bytearray(n)` raises `ValueError` for negative `n` and otherwise builds a
zero-filled buffer of length `n` (length 0 included: no capacity check is
performed by the source). -/
def Program.init (size : Int) : Except PyError Program :=
  if size < 0 then .error .valueError
  else .ok ⟨size, List.replicate size.toNat 0⟩

/-- The loop of `Program.add_instruction`:
`for i in range(self.size): if self.instructions[i] == 0: ...`.
`fuel` is the number of loop iterations still to run (initially `size`),
`i` the current index.  Indexing past the end of `instructions` raises
`IndexError` exactly as `self.instructions[i]` would; writing checks the
byte range as bytearray item assignment does; loop exhaustion raises
`MemoryError("Program memory is full.")`. -/
def addInstructionLoop (instrs : List Byte) (v : Nat) :
    Nat → Nat → Except PyError (Nat × List Byte)
  | 0, _ => .error .memoryError
  | fuel + 1, i =>
    match instrs[i]? with
    | none => .error .indexError
    | some b =>
      if b = 0 then
        if v ≤ 255 then .ok (i, instrs.set i v) else .error .valueError
      else addInstructionLoop instrs v fuel (i + 1)

/-- `Program.add_instruction(self, instruction)` (src/memory.py lines 11-18):
scan for the first zero slot, write the instruction there and return the
index, else raise `MemoryError`. -/
def Program.add_instruction (p : Program) (v : Nat) :
    Except PyError (Nat × Program) :=
  match addInstructionLoop p.instructions v p.size.toNat 0 with
  | .error e => .error e
  | .ok (i, l) => .ok (i, { p with instructions := l })

/-- A straight-line client that calls `add_instruction` once per listed
value, propagating the first failure (mirrors the driver at the bottom of
src/memory.py). -/
def addSeq (p : Program) : List Nat → Except PyError Program
  | [] => .ok p
  | v :: vs =>
    match p.add_instruction v with
    | .error e => .error e
    | .ok (_, q) => addSeq q vs

/-- Index of the first zero byte of a buffer, in iteration order (the value
computed by the scanning loops of `add_instruction` and
`DynamicLoader.load`). -/
def firstZero : List Byte → Option Nat
  | [] => none
  | b :: rest => if b = 0 then some 0 else (firstZero rest).map (· + 1)

/-- Number of zero ("free") slots of a buffer. -/
def countZeros : List Byte → Nat
  | [] => 0
  | b :: rest => (if b = 0 then 1 else 0) + countZeros rest

/-- `StaticLoader.load(self, program, memory)` (src/memory.py lines 27-34):
iterate over `memory`; on the first zero byte perform
`memory[:len(program.instructions)] = program.instructions` and return.
For a bytearray of length `L` that slice assignment yields
`program.instructions ++ memory.drop (len instructions)` — when the
instructions are longer than `memory`, the bytearray GROWS (no error).
If no byte is zero, raise `MemoryError`. -/
def StaticLoader.load (program : Program) (memory : List Byte) :
    Except PyError (List Byte) :=
  if memory.any (fun b => b == 0) then
    .ok (program.instructions ++ memory.drop program.instructions.length)
  else .error .memoryError

/-- `DynamicLoader.load(self, program, memory)` (src/memory.py lines 38-45):
find the first index `i` with `memory[i] == 0` and perform
`memory[i:i + len(program.instructions)] = program.instructions`, i.e.
`memory.take i ++ instructions ++ memory.drop (i + len instructions)`
(again the bytearray grows when the slice runs past the end).
If no byte is zero, raise `MemoryError`. -/
def DynamicLoader.load (program : Program) (memory : List Byte) :
    Except PyError (List Byte) :=
  match firstZero memory with
  | some i =>
      .ok (memory.take i ++ program.instructions ++
            memory.drop (i + program.instructions.length))
  | none => .error .memoryError

/-- The closed set of loader strategies dispatched by `Memory.add`. -/
inductive Loader where
  | StaticLoader
  | DynamicLoader
deriving DecidableEq, Repr

/-- One entry of the partition table
(src/memory.py lines 112-116): `{'start': ..., 'end': ..., 'data': ...}`. -/
structure PartitionRec where
  start : Int
  «end» : Int
  data : List Byte
deriving DecidableEq, Repr

/-- `class Memory` (src/memory.py lines 47-119).  The instance-owned state is
`size` and the `memory` bytearray; the `partitions` list is a CLASS attribute
(line 49) that the instances mutate but never rebind, hence it lives outside
this structure and is passed to the operations that use it. -/
structure Memory where
  size : Int
  memory : List Byte
deriving DecidableEq, Repr

/-- `Memory.__init__(self, size=512)`: `self.memory = bytearray(size)`
(`ValueError` on a negative size, as `bytearray` raises). -/
def Memory.init (size : Int) : Except PyError Memory :=
  if size < 0 then .error .valueError
  else .ok ⟨size, List.replicate size.toNat 0⟩

/-- What the attribute lookup `m.partitions` evaluates to in the source: the
single class-level list, shared by every `Memory` instance (`self.partitions`
finds no instance attribute — it is appended to, never assigned — so it
resolves to `Memory.partitions`). -/
def Memory.observedPartitions (_m : Memory) (shared : List PartitionRec) :
    List PartitionRec :=
  shared

/-- `Memory.reset(self)` (lines 57-60): `self.memory = bytearray(self.size)`.
(For every constructed instance `size` is non-negative, so `bytearray`
succeeds and yields `size` zero bytes.) -/
def Memory.reset (m : Memory) : Memory :=
  { m with memory := List.replicate m.size.toNat 0 }

/-- `Memory.read(self, address)` (lines 66-73): bounds check against `size`,
then index the bytearray (which itself raises `IndexError` when out of its
range). -/
def Memory.read (m : Memory) (address : Int) : Except PyError Byte :=
  if 0 ≤ address ∧ address < m.size then
    match m.memory[address.toNat]? with
    | some b => .ok b
    | none => .error .indexError
  else .error .indexError

/-- `Memory.write(self, address, value)` (lines 75-84): bounds check against
`size`, byte-range check on the value, then bytearray item assignment (which
raises `IndexError` if the index is past the buffer's own length). -/
def Memory.write (m : Memory) (address value : Int) : Except PyError Memory :=
  if 0 ≤ address ∧ address < m.size then
    if 0 ≤ value ∧ value < 256 then
      if address.toNat < m.memory.length then
        .ok { m with memory := m.memory.set address.toNat value.toNat }
      else .error .indexError
    else .error .valueError
  else .error .indexError

/-- `Memory.add(self, program, loader)` (lines 62-64): delegates to
`loader.load(program, self.memory)`, which mutates (and possibly resizes)
the instance's buffer in place. -/
def Memory.add (m : Memory) (program : Program) (loader : Loader) :
    Except PyError Memory :=
  match loader with
  | .StaticLoader =>
      (StaticLoader.load program m.memory).map fun buf => { m with memory := buf }
  | .DynamicLoader =>
      (DynamicLoader.load program m.memory).map fun buf => { m with memory := buf }

/-- Python slice `l[s:e]` for `0 ≤ s` and `0 ≤ e`: a fresh COPY of the
elements at indices `s, ..., min e (len l) - 1`. -/
def pySlice (l : List Byte) (s e : Int) : List Byte :=
  (l.take e.toNat).drop s.toNat

/-- `Memory.partition(self, start, end)` (lines 109-119): validate
`0 <= start < end <= self.size`, then append
`{'start': start, 'end': end, 'data': self.memory[start:end]}` to the
(class-level) partition list; raise `IndexError` otherwise. -/
def Memory.partition (m : Memory) (shared : List PartitionRec)
    (start «end» : Int) : Except PyError (List PartitionRec) :=
  if 0 ≤ start ∧ start < «end» ∧ «end» ≤ m.size then
    .ok (shared ++ [⟨start, «end», pySlice m.memory start «end»⟩])
  else .error .indexError

/-- `class Pagination` (src/memory.py lines 121-133).  NOTE the attribute
naming of the source: the constructor parameter `size` is the page size and
the attribute `page_size` stores `memory.size // size`, i.e. the page COUNT.
The `pages` dict `{i: None for i in range(self.page_size)}` is kept as its
key list. -/
structure Pagination where
  size : Int
  page_size : Int
  pages : List Nat
deriving DecidableEq, Repr

/-- Python `range(0, stop, step)` for `step > 0`, as a list of indices. -/
def rangeStep (stop step : Nat) : List Nat :=
  (List.range ((stop + step - 1) / step)).map (fun k => k * step)

/-- The constructor loop of `Pagination.__init__` (lines 132-133):
`self.memory.partition(i, min(i + self.page_size, memory.size))` for each
stride `i`, threading the class-level partition list and propagating any
exception. -/
def partitionLoop (m : Memory) (count : Int) :
    List Nat → List PartitionRec → Except PyError (List PartitionRec)
  | [], shared => .ok shared
  | i :: rest, shared =>
    match m.partition shared (i : Int) (min ((i : Int) + count) m.size) with
    | .error e => .error e
    | .ok shared2 => partitionLoop m count rest shared2

/-- `Pagination.__init__(self, memory, size=128)` (lines 124-133):
`self.page_size = memory.size // size` (floor division), the `pages` dict,
then the partition loop over `range(0, memory.size, size)`.  Returns the
constructed object together with the updated class-level partition list. -/
def Pagination.init (shared : List PartitionRec) (m : Memory) (size : Int) :
    Except PyError (Pagination × List PartitionRec) :=
  let page_size := Int.fdiv m.size size
  match partitionLoop m page_size (rangeStep m.size.toNat size.toNat) shared with
  | .error e => .error e
  | .ok shared2 => .ok (⟨size, page_size, List.range page_size.toNat⟩, shared2)

/-- The client sequence "partition, then write": runs
`m.partition(s, e)` followed by `m.write(a, v)` and returns the final
(buffer, partition-list) pair.  Used to state that a partition's `data`
snapshot is taken at partition time and is not affected by the later
write. -/
def partitionThenWrite (m : Memory) (shared : List PartitionRec)
    (s e a v : Int) : Except PyError (Memory × List PartitionRec) :=
  match m.partition shared s e with
  | .error err => .error err
  | .ok shared2 =>
    match m.write a v with
    | .error err => .error err
    | .ok m2 => .ok (m2, shared2)

/-- The client sequence "partition, then reset", analogous to
`partitionThenWrite`. -/
def partitionThenReset (m : Memory) (shared : List PartitionRec)
    (s e : Int) : Except PyError (Memory × List PartitionRec) :=
  match m.partition shared s e with
  | .error err => .error err
  | .ok shared2 => .ok (m.reset, shared2)

/-! ### Helper lemmas: the zero-slot scan -/

lemma firstZero_eq_none_iff (l : List Byte) :
    firstZero l = none ↔ ∀ b ∈ l, b ≠ 0 := by
  induction l with
  | nil => simp [firstZero]
  | cons b rest ih =>
    by_cases hb : b = 0 <;> simp [firstZero, hb, ih]

lemma countZeros_eq_zero_iff (l : List Byte) :
    countZeros l = 0 ↔ ∀ b ∈ l, b ≠ 0 := by
  induction l with
  | nil => simp [countZeros]
  | cons b rest ih =>
    by_cases hb : b = 0 <;> simp [countZeros, hb, ih]

lemma countZeros_append (l1 l2 : List Byte) :
    countZeros (l1 ++ l2) = countZeros l1 + countZeros l2 := by
  induction l1 with
  | nil => simp [countZeros]
  | cons b rest ih => simp [countZeros, ih, Nat.add_assoc]

lemma firstZero_decomp (l : List Byte) (i : Nat) (h : firstZero l = some i) :
    ∃ l1 l2, l = l1 ++ 0 :: l2 ∧ l1.length = i ∧ ∀ b ∈ l1, b ≠ 0 := by
  induction l generalizing i with
  | nil => simp [firstZero] at h
  | cons b rest ih =>
    by_cases hb : b = 0
    · subst hb
      simp [firstZero] at h
      exact ⟨[], rest, by simp, by simp [← h], by simp⟩
    · simp [firstZero, hb, Option.map_eq_some'] at h
      obtain ⟨j, hj, hi⟩ := h
      subst hi
      obtain ⟨l1, l2, rfl, hlen, hnz⟩ := ih j hj
      refine ⟨b :: l1, l2, rfl, by simp [hlen], ?_⟩
      intro c hc
      rcases List.mem_cons.mp hc with hcb | hcl
      · exact hcb ▸ hb
      · exact hnz c hcl

lemma set_append_cons (l1 l2 : List Byte) (b v : Byte) :
    (l1 ++ b :: l2).set l1.length v = l1 ++ v :: l2 := by
  induction l1 with
  | nil => rfl
  | cons a as ih =>
    simp only [List.cons_append, List.length_cons, List.set_cons_succ, ih]

lemma drop_eq_cons (l : List Byte) (i : Nat) (b : Byte) (tail : List Byte)
    (h : l.drop i = b :: tail) : l[i]? = some b ∧ l.drop (i + 1) = tail := by
  constructor
  · have h0 : (l.drop i)[0]? = l[i]? := by
      rw [List.getElem?_drop]
      simp
    rw [← h0, h]
    simp
  · rw [← List.tail_drop, h]
    rfl

/-! ### Helper lemmas: `add_instruction` -/

lemma addInstructionLoop_spec (v : Nat) (tail : List Byte) :
    ∀ (l : List Byte) (i : Nat), l.drop i = tail → i + tail.length = l.length →
      addInstructionLoop l v tail.length i =
        match firstZero tail with
        | none => .error .memoryError
        | some j =>
          if v ≤ 255 then .ok (i + j, l.set (i + j) v)
          else .error .valueError := by
  induction tail with
  | nil =>
    intro l i hdrop hlen
    simp [addInstructionLoop, firstZero]
  | cons b rest ih =>
    intro l i hdrop hlen
    obtain ⟨hget, hdrop2⟩ := drop_eq_cons l i b rest hdrop
    show addInstructionLoop l v (rest.length + 1) i = _
    rw [addInstructionLoop, hget]
    by_cases hb : b = 0
    · subst hb
      simp [firstZero]
    · have hrec := ih l (i + 1) hdrop2 (by simp at hlen ⊢; omega)
      simp only [hb, if_false, hrec, firstZero, if_neg hb]
      cases hfz : firstZero rest with
      | none => simp
      | some j =>
        have harith : i + 1 + j = i + (j + 1) := by omega
        simp [harith]

lemma add_instruction_eq (p : Program) (v : Nat)
    (hsize : p.size = (p.instructions.length : Int)) :
    p.add_instruction v =
      match firstZero p.instructions with
      | none => .error .memoryError
      | some j =>
        if v ≤ 255 then
          .ok (j, { p with instructions := p.instructions.set j v })
        else .error .valueError := by
  have hnat : p.size.toNat = p.instructions.length := by omega
  unfold Program.add_instruction
  rw [hnat,
    addInstructionLoop_spec v p.instructions p.instructions 0 (by simp) (by simp)]
  cases hfz : firstZero p.instructions with
  | none => simp
  | some j => by_cases hv : v ≤ 255 <;> simp [hv]

lemma add_instruction_success (p : Program) (v : Nat)
    (hsize : p.size = (p.instructions.length : Int))
    (hv : v ≤ 255) (hz : 0 < countZeros p.instructions) :
    ∃ i, firstZero p.instructions = some i ∧
      p.add_instruction v =
        .ok (i, { p with instructions := p.instructions.set i v }) ∧
      (p.instructions.set i v).length = p.instructions.length ∧
      (v ≠ 0 → countZeros (p.instructions.set i v) = countZeros p.instructions - 1) ∧
      (v = 0 → p.instructions.set i v = p.instructions) := by
  obtain ⟨i, hfz⟩ : ∃ i, firstZero p.instructions = some i := by
    cases hfz : firstZero p.instructions with
    | none =>
      have := (countZeros_eq_zero_iff p.instructions).mpr
        ((firstZero_eq_none_iff p.instructions).mp hfz)
      omega
    | some i => exact ⟨i, rfl⟩
  obtain ⟨l1, l2, hdec, hlen, hnz⟩ := firstZero_decomp p.instructions i hfz
  have hzeros1 : countZeros l1 = 0 := (countZeros_eq_zero_iff l1).mpr hnz
  have hset : p.instructions.set i v = l1 ++ v :: l2 := by
    rw [hdec, ← hlen, set_append_cons]
  refine ⟨i, hfz, ?_, ?_, ?_, ?_⟩
  · rw [add_instruction_eq p v hsize, hfz]
    simp [hv]
  · simp
  · intro hv0
    rw [hset, hdec, countZeros_append, countZeros_append]
    simp [countZeros, hzeros1, hv0]
  · intro hv0
    rw [hset, hv0, hdec]

lemma add_instruction_full (p : Program) (v : Nat)
    (hsize : p.size = (p.instructions.length : Int))
    (hz : countZeros p.instructions = 0) :
    p.add_instruction v = .error .memoryError := by
  rw [add_instruction_eq p v hsize]
  have hfz : firstZero p.instructions = none :=
    (firstZero_eq_none_iff p.instructions).mpr
      ((countZeros_eq_zero_iff p.instructions).mp hz)
  simp [hfz]

lemma addSeq_spec (vs : List Nat) :
    ∀ (p : Program), p.size = (p.instructions.length : Int) →
      (∀ v ∈ vs, 1 ≤ v ∧ v ≤ 255) →
      vs.length = countZeros p.instructions →
      ∃ q, addSeq p vs = .ok q ∧
        q.size = p.size ∧
        q.instructions.length = p.instructions.length ∧
        countZeros q.instructions = 0 := by
  induction vs with
  | nil =>
    intro p _ _ hlen
    exact ⟨p, rfl, rfl, rfl, by simp at hlen; omega⟩
  | cons v vs ih =>
    intro p hsize hvs hlen
    simp only [List.length_cons] at hlen
    have hz : 0 < countZeros p.instructions := by omega
    have hv := hvs v (List.mem_cons_self v vs)
    obtain ⟨i, hfz, hok, hsetlen, hdec, _⟩ :=
      add_instruction_success p v hsize hv.2 hz
    have hsize1 :
        ({ p with instructions := p.instructions.set i v } : Program).size =
          (({ p with instructions := p.instructions.set i v } : Program).instructions.length : Int) := by
      simp [hsetlen, hsize]
    have hlen1 : vs.length =
        countZeros ({ p with instructions := p.instructions.set i v } : Program).instructions := by
      have hvne : v ≠ 0 := by omega
      have hd := hdec hvne
      simp only at hd ⊢
      omega
    obtain ⟨q, hseq, hqsize, hqlen, hqz⟩ :=
      ih { p with instructions := p.instructions.set i v } hsize1
        (fun w hw => hvs w (List.mem_cons_of_mem v hw)) hlen1
    refine ⟨q, ?_, ?_, ?_, hqz⟩
    · simp only [addSeq, hok]
      exact hseq
    · rw [hqsize]
    · rw [hqlen]
      exact hsetlen

/-- Claim C6: on a `Program` with exactly `k` zero slots, `add_instruction`
with non-zero byte values succeeds exactly `k` times — each call writing the
value into the lowest-indexed zero slot and returning that index — and the
`(k+1)`-th call fails with the capacity error (`MemoryError`). -/
theorem c6_add_instruction_fills_free_slots (p : Program) (vs : List Nat)
    (hsize : p.size = (p.instructions.length : Int))
    (hvs : ∀ v ∈ vs, 1 ≤ v ∧ v ≤ 255)
    (hlen : vs.length = countZeros p.instructions) :
    (∀ (q : Program) (v : Nat), q.size = (q.instructions.length : Int) →
      1 ≤ v → v ≤ 255 → 0 < countZeros q.instructions →
      ∃ i, firstZero q.instructions = some i ∧
        q.add_instruction v =
          .ok (i, { q with instructions := q.instructions.set i v })) ∧
    ∃ q, addSeq p vs = .ok q ∧
      ∀ w, q.add_instruction w = .error .memoryError := by
  constructor
  · intro q v hq _ h2 hz
    obtain ⟨i, hfz, hok, _, _, _⟩ := add_instruction_success q v hq h2 hz
    exact ⟨i, hfz, hok⟩
  · obtain ⟨q, hseq, hqsize, hqlen, hqz⟩ := addSeq_spec vs p hsize hvs hlen
    refine ⟨q, hseq, fun w => add_instruction_full q w ?_ hqz⟩
    rw [hqsize, hsize, hqlen]

theorem c6_witness :
    ∃ q, addSeq ⟨2, [0, 0]⟩ [7, 9] = .ok q ∧
      ∀ w, q.add_instruction w = .error .memoryError :=
  (c6_add_instruction_fills_free_slots ⟨2, [0, 0]⟩ [7, 9] (by decide)
    (by decide) (by decide)).2

/-- Claim C10: calling `add_instruction` with the byte value 0 on a program
that still has a zero slot succeeds, returns the index of the first zero
slot, and leaves the buffer unchanged; repeated zero-valued calls therefore
never consume capacity. -/
theorem c10_add_zero_is_noop (p : Program)
    (hsize : p.size = (p.instructions.length : Int))
    (hz : 0 < countZeros p.instructions) :
    ∃ i, firstZero p.instructions = some i ∧
      p.add_instruction 0 = .ok (i, p) ∧
      ∀ n, addSeq p (List.replicate n 0) = .ok p := by
  obtain ⟨i, hfz, hok, _, _, hnoop⟩ :=
    add_instruction_success p 0 hsize (by omega) hz
  have hpeq : ({ p with instructions := p.instructions.set i 0 } : Program) = p := by
    rw [hnoop rfl]
  rw [hpeq] at hok
  refine ⟨i, hfz, hok, ?_⟩
  intro n
  induction n with
  | zero => rfl
  | succ n ih =>
    rw [List.replicate_succ]
    simp only [addSeq, hok]
    exact ih

theorem c10_witness :
    ∃ i, firstZero ([4, 0, 6] : List Byte) = some i ∧
      Program.add_instruction ⟨3, [4, 0, 6]⟩ 0 = .ok (i, ⟨3, [4, 0, 6]⟩) ∧
      ∀ n, addSeq ⟨3, [4, 0, 6]⟩ (List.replicate n 0) = .ok ⟨3, [4, 0, 6]⟩ :=
  c10_add_zero_is_noop ⟨3, [4, 0, 6]⟩ (by decide) (by decide)

/-- Claim C9 (code bug): the source performs NO capacity validation —
`Program(0)` succeeds and yields an empty instruction buffer instead of
failing with the `InvalidCapacity` error the spec requires for every
capacity `n ≤ 0` (a negative capacity does fail, because `bytearray`
itself rejects it). -/
theorem c9_zero_capacity_accepted :
    Program.init 0 = .ok ⟨0, []⟩ ∧
    Program.init (-1) = .error .valueError ∧
    Program.init 5 = .ok ⟨5, [0, 0, 0, 0, 0]⟩ :=
  ⟨rfl, rfl, rfl⟩

/-! ### Helper lemmas: the loaders -/

lemma getElem?_append_cons (l1 l2 : List Byte) (b : Byte) :
    (l1 ++ b :: l2)[l1.length]? = some b := by
  induction l1 with
  | nil => simp
  | cons a as ih =>
    simp only [List.cons_append, List.length_cons, List.getElem?_cons_succ]
    exact ih

lemma any_zero_of_mem (memory : List Byte) (hex : ∃ b ∈ memory, b = 0) :
    memory.any (fun b => b == 0) = true := by
  rw [List.any_eq_true]
  obtain ⟨b, hb, hb0⟩ := hex
  exact ⟨b, hb, by simp [hb0]⟩

lemma any_zero_of_none (memory : List Byte) (hall : ∀ b ∈ memory, b ≠ 0) :
    memory.any (fun b => b == 0) = false := by
  rw [List.any_eq_false]
  intro b hb
  simp [hall b hb]

/-- Claim C5: when the program fits and the target buffer holds a zero byte
anywhere, `StaticLoader.load` copies the whole instruction buffer to address
0 (the found index only gates the copy); the concrete spec scenario
`[1,2,3]` into eight zero bytes gives `[1,2,3,0,0,0,0,0]`; with no zero byte
it fails with `MemoryError` ("memory full"). -/
theorem c5_static_loader_copies_to_address_zero (p : Program)
    (memory : List Byte) (hfit : p.instructions.length ≤ memory.length) :
    ((∃ b ∈ memory, b = 0) →
      StaticLoader.load p memory =
        .ok (p.instructions ++ memory.drop p.instructions.length) ∧
      (p.instructions ++ memory.drop p.instructions.length).length =
        memory.length ∧
      (p.instructions ++ memory.drop p.instructions.length).take
        p.instructions.length = p.instructions) ∧
    ((∀ b ∈ memory, b ≠ 0) → StaticLoader.load p memory = .error .memoryError) ∧
    StaticLoader.load ⟨3, [1, 2, 3]⟩ (List.replicate 8 0) =
      .ok [1, 2, 3, 0, 0, 0, 0, 0] := by
  refine ⟨?_, ?_, rfl⟩
  · intro hex
    refine ⟨by simp [StaticLoader.load, any_zero_of_mem memory hex], ?_, ?_⟩
    · simp only [List.length_append, List.length_drop]
      omega
    · exact List.take_left _ _
  · intro hall
    simp [StaticLoader.load, any_zero_of_none memory hall]

theorem c5_witness :
    StaticLoader.load ⟨3, [1, 2, 3]⟩ (List.replicate 8 0) =
      .ok ([1, 2, 3] ++ (List.replicate 8 0).drop 3) :=
  ((c5_static_loader_copies_to_address_zero ⟨3, [1, 2, 3]⟩
    (List.replicate 8 0) (by decide)).1 ⟨0, by decide, rfl⟩).1

/-- Claim C8: when the copy from the first zero index fits,
`DynamicLoader.load` places the whole instruction buffer at the lowest
address holding 0 (true first-fit), leaving the prefix below that address
unchanged and the buffer length intact; on a buffer with no zero byte both
loaders fail with `MemoryError` ("memory full"). -/
theorem c8_dynamic_loader_first_fit (p : Program) (memory : List Byte) :
    (∀ i, firstZero memory = some i →
      i + p.instructions.length ≤ memory.length →
      DynamicLoader.load p memory =
        .ok (memory.take i ++ p.instructions ++
              memory.drop (i + p.instructions.length)) ∧
      memory[i]? = some 0 ∧
      (∀ j, j < i → memory[j]? ≠ some 0) ∧
      (memory.take i ++ p.instructions ++
        memory.drop (i + p.instructions.length)).take i = memory.take i ∧
      (memory.take i ++ p.instructions ++
        memory.drop (i + p.instructions.length)).length = memory.length) ∧
    ((∀ b ∈ memory, b ≠ 0) →
      DynamicLoader.load p memory = .error .memoryError ∧
      StaticLoader.load p memory = .error .memoryError) := by
  constructor
  · intro i hfz hfit
    obtain ⟨l1, l2, hdec, hlen, hnz⟩ := firstZero_decomp memory i hfz
    have hi_le : i ≤ memory.length := by omega
    refine ⟨by simp [DynamicLoader.load, hfz], ?_, ?_, ?_, ?_⟩
    · rw [hdec, ← hlen]
      exact getElem?_append_cons l1 l2 0
    · intro j hj hcontra
      rw [hdec, List.getElem?_append_left (by omega)] at hcontra
      have hjlt : j < l1.length := by omega
      rw [List.getElem?_eq_getElem hjlt] at hcontra
      have hget : l1[j] = 0 := Option.some.inj hcontra
      have hmem : (0 : Byte) ∈ l1 := by
        rw [← hget]
        exact List.getElem_mem hjlt
      exact hnz 0 hmem rfl
    · have htk : (memory.take i).length = i := by
        simp [List.length_take]
        omega
      rw [List.take_append_of_le_length (by simp [htk]),
        List.take_append_of_le_length htk.ge]
      simp [List.take_take]
    · simp only [List.length_append, List.length_take, List.length_drop]
      omega
  · intro hall
    have hfz : firstZero memory = none := (firstZero_eq_none_iff memory).mpr hall
    constructor
    · simp [DynamicLoader.load, hfz]
    · simp [StaticLoader.load, any_zero_of_none memory hall]

theorem c8_witness :
    DynamicLoader.load ⟨3, [1, 2, 3]⟩ [5, 0, 0, 0, 0] =
      .ok (([5, 0, 0, 0, 0] : List Byte).take 1 ++ [1, 2, 3] ++
            ([5, 0, 0, 0, 0] : List Byte).drop 4) :=
  ((c8_dynamic_loader_first_fit ⟨3, [1, 2, 3]⟩ [5, 0, 0, 0, 0]).1 1
    (by decide) (by decide)).1

/-- Claim C7: `Memory.partition(s, e)` fails with the bounds error
(`IndexError`) exactly when `s < 0`, `s ≥ e`, or `e > size` (in particular
`s = e` is rejected); on a valid range it appends exactly one record whose
`data` is the slice copy taken at call time, and a subsequent `write` or
`reset` leaves that recorded snapshot as the slice of the OLD buffer. -/
theorem c7_partition_validation_and_snapshot (m : Memory)
    (shared : List PartitionRec) (s e : Int) :
    ((s < 0 ∨ e ≤ s ∨ m.size < e) →
      m.partition shared s e = .error .indexError) ∧
    (0 ≤ s → s < e → e ≤ m.size →
      m.partition shared s e =
        .ok (shared ++ [⟨s, e, pySlice m.memory s e⟩]) ∧
      (∀ a v m2, m.write a v = .ok m2 →
        partitionThenWrite m shared s e a v =
          .ok (m2, shared ++ [⟨s, e, pySlice m.memory s e⟩])) ∧
      partitionThenReset m shared s e =
        .ok (m.reset, shared ++ [⟨s, e, pySlice m.memory s e⟩])) := by
  constructor
  · intro hbad
    rw [Memory.partition, if_neg]
    intro hgood
    omega
  · intro h1 h2 h3
    have hok : m.partition shared s e =
        .ok (shared ++ [⟨s, e, pySlice m.memory s e⟩]) := by
      rw [Memory.partition, if_pos ⟨h1, h2, h3⟩]
    refine ⟨hok, ?_, ?_⟩
    · intro a v m2 hw
      simp only [partitionThenWrite, hok, hw]
    · simp only [partitionThenReset, hok]

theorem c7_witness :
    Memory.partition ⟨4, [9, 9, 9, 9]⟩ [] 0 2 =
      .ok [⟨0, 2, pySlice [9, 9, 9, 9] 0 2⟩] :=
  ((c7_partition_validation_and_snapshot ⟨4, [9, 9, 9, 9]⟩ [] 0 2).2
    (by decide) (by decide) (by decide)).1

/-- Claim C1 (code bug): when the program's instructions would overrun the
target buffer, neither loader fails and no `MemoryFull`/bounds error is
raised — Python slice assignment silently RESIZES the bytearray.  Loading 3
instructions into a 2-byte zeroed buffer succeeds with either loader and
leaves a 3-byte buffer. -/
theorem c1_loader_overflow_resizes_buffer :
    StaticLoader.load ⟨3, [1, 2, 3]⟩ [0, 0] = .ok [1, 2, 3] ∧
    DynamicLoader.load ⟨3, [1, 2, 3]⟩ [0, 0] = .ok [1, 2, 3] ∧
    ([1, 2, 3] : List Byte).length ≠ ([0, 0] : List Byte).length :=
  ⟨rfl, rfl, by decide⟩

/-- Claim C3 (code bug): `partitions = []` is declared in the CLASS body of
`Memory` and is only ever mutated, never rebound, so every instance aliases
the same list.  With two freshly constructed memories A and B (shared list
empty), `A.partition(0, 1)` appends one record to the class-level list, and
B's attribute lookup then observes that record too — B's partition records
do NOT stay unchanged. -/
theorem c3_partition_list_shared_between_instances :
    Memory.init 4 = .ok ⟨4, [0, 0, 0, 0]⟩ ∧
    Memory.partition ⟨4, [0, 0, 0, 0]⟩ [] 0 1 = .ok [⟨0, 1, [0]⟩] ∧
    Memory.observedPartitions ⟨4, [0, 0, 0, 0]⟩ [] = [] ∧
    Memory.observedPartitions ⟨4, [0, 0, 0, 0]⟩ [⟨0, 1, [0]⟩] =
      [⟨0, 1, [0]⟩] :=
  ⟨rfl, rfl, rfl, rfl⟩

/-- Claim C4 (code bug): the invariant `len(memory) == size` survives
construction, `read`, `write`, `reset` and `partition`, but NOT `add`: a
3-instruction program (built through the public API) loaded into a
`Memory(2)` resizes the backing buffer to length 3 while `size` stays 2. -/
theorem c4_add_breaks_length_invariant :
    Memory.init 2 = .ok ⟨2, [0, 0]⟩ ∧
    Program.init 3 = .ok ⟨3, [0, 0, 0]⟩ ∧
    addSeq ⟨3, [0, 0, 0]⟩ [1, 2, 3] = .ok ⟨3, [1, 2, 3]⟩ ∧
    Memory.add ⟨2, [0, 0]⟩ ⟨3, [1, 2, 3]⟩ .StaticLoader =
      .ok ⟨2, [1, 2, 3]⟩ ∧
    (⟨2, [1, 2, 3]⟩ : Memory).memory.length ≠
      (⟨2, [1, 2, 3]⟩ : Memory).size.toNat :=
  ⟨rfl, rfl, rfl, rfl, by decide⟩

/-- Claim C2: constructing `Pagination` over a `Memory` of size 512 with
page size 128 stores `512 // 128 = 4` in the (misnamed) `page_size`
attribute — the spec's `page_count` — and registers exactly 4 partition
records, one per 128-stride, each ending at `min(start + 4, 512)`: the
first partition is the range `[0, 4)`, not `[0, 128)`. -/
theorem c2_pagination_page_count_bounds :
    Memory.init 512 = .ok ⟨512, List.replicate 512 0⟩ ∧
    (Pagination.init [] ⟨512, List.replicate 512 0⟩ 128).map
        (fun x => (x.1.page_size, x.2.length,
          x.2.map (fun r => (r.start, r.«end»)))) =
      .ok (4, 4, [(0, 4), (128, 132), (256, 260), (384, 388)]) :=
  ⟨rfl, rfl⟩
